import Mathlib

/-!
# xmlpp-util (`xmlpp_util.hpp`): a shallow embedding and its verified properties

The header is a thin layer over libxml++.  The embedding has two parts.

* The library side (`Node`, `Document`, the node and document primitives, the
  parser and the UTF-8 check) is not part of the header.  It is modelled from
  the data model and the collaborator contract of the specification: a node is
  a labelled tree node with a tag name, optional text content and an ordered
  sequence of children, and import is a deep copy.  Trees are values, so a deep
  copy of a node is the node's value.
* The header side (`write_kv`, `EasyDocument`, `fill_node`, `copy_children`,
  `map_node`) is translated statement by statement from the source.  A function
  with one node reference (`write_kv`, `fill_node`) maps the node before to the
  node after; `copy_children`, with two references that may alias, acts on the
  trees in place.

Whether the mapping constructor of `EasyDocument` can be instantiated depends
on the lookup of the name `fill_node`, which is modelled on the declarations of
the header.

C++ effects are explicit: a method is a function from the state it can touch to
an `Outcome`, which is a normal return, a propagating exception (with the state
as it was left at the throw) or undefined behaviour (a null dereference).
-/

namespace xmlpp

/-! ## Text -/

/-- Glib::ustring: a byte string.  It is meant to hold UTF-8 but nothing checks
this when a value is built, which is why `EasyDocument::parse` validates. -/
abbrev ustring := List UInt8

/-- A string literal of the source as a `ustring` (its UTF-8 bytes). -/
def ustr (s : String) : ustring := s.toUTF8.data.toList

/-! ## Library side: nodes and documents -/

/-- Modelled from the spec: xmlpp::Node / xmlpp::Element, declared by libxml++.
"A labeled tree node with a tag name, optional text content, and an ordered
sequence of child nodes."  A text node is a node named `text` that carries
content; an element carries none. -/
structure Node where
  name : ustring
  content : Option ustring
  children : List Node

namespace Node

/-- Modelled from the spec: a fresh element, as the library creates it: the
given tag name, no text content, no children. -/
def new_element (name : ustring) : Node := ⟨name, none, []⟩

/-- Modelled from the spec: a fresh text node holding `content`. -/
def new_text (content : ustring) : Node := ⟨ustr "text", some content, []⟩

/-- Modelled from the spec: Node::get_name. -/
def get_name (n : Node) : ustring := n.name

/-- Modelled from the spec: Node::get_children, the ordered immediate children. -/
def get_children (n : Node) : List Node := n.children

/-- Modelled from the spec: Node::set_name. -/
def set_name (n : Node) (name : ustring) : Node := { n with name := name }

/-- Modelled from the spec: Node::add_child(name): appends a fresh element as
the last child.  The Element* it returns designates that last child. -/
def add_child (container : Node) (name : ustring) : Node :=
  { container with children := container.children ++ [new_element name] }

/-- Modelled from the spec: Element::add_child_text(content): appends a fresh
text node as the last child. -/
def add_child_text (e : Node) (content : ustring) : Node :=
  { e with children := e.children ++ [new_text content] }

/-- Modelled from the spec: Node::import_node(v): appends a deep copy of `v`
as the last child, "without affecting the source node". -/
def import_node (dest : Node) (v : Node) : Node :=
  { dest with children := dest.children ++ [v] }

/-- A mutation made through the Element* that `add_child` has just returned:
`f` is applied to the last child, in place. -/
def through_last_child (container : Node) (f : Node → Node) : Node :=
  match container.children.getLast? with
  | none => container
  | some last => { container with children := container.children.dropLast ++ [f last] }

end Node

/-- Modelled from the spec: xmlpp::Document, declared by libxml++: "a tree of
elements with a single root"; the root pointer is null until a root is
created. -/
structure Document where
  version : ustring
  root : Option Node

namespace Document

/-- Modelled from the spec: the constructor xmlpp::Document(version): an empty
document, without a root. -/
def new (version : ustring) : Document := ⟨version, none⟩

/-- Modelled from the spec: Document::get_root_node; `none` is the null
pointer. -/
def get_root_node (d : Document) : Option Node := d.root

/-- Modelled from the spec: Document::create_root_node(name): a fresh element
becomes the root, replacing any previous root. -/
def create_root_node (d : Document) (name : ustring) : Document :=
  { d with root := some (Node.new_element name) }

/-- Modelled from the spec: Document::create_root_node_by_import(node): a deep
copy of `node` becomes the root, replacing any previous root. -/
def create_root_node_by_import (d : Document) (node : Node) : Document :=
  { d with root := some node }

end Document

/-! ## Effects -/

/-- The exceptions that can cross the header's functions. -/
inductive Exception where
  /-- An xmlpp::parse_error thrown by the header itself, with its message: the
  three failures that `parse` raises are of this one class and differ in their
  message. -/
  | parse_error (what : String)
  /-- A failure raised inside libxml++ and passed through unchanged. -/
  | library_error (what : String)
  /-- A std::out_of_range. -/
  | out_of_range
  /-- A std::bad_function_call: an empty std::function was called. -/
  | bad_function_call
  /-- Any other exception a callback throws. -/
  | other (what : String)
  deriving DecidableEq, Repr

/-- How a C++ function ends: it returns `a` and leaves the state `s`, or an
exception propagates out of it and leaves the state `s`, or its behaviour is
undefined. -/
inductive Outcome (σ : Type) (α : Type) where
  | ok (a : α) (s : σ)
  | raise (e : Exception) (s : σ)
  | undefined

/-- A C++ function over the mutable state `σ`. -/
def Prog (σ : Type) (α : Type) : Type := σ → Outcome σ α

namespace Prog

/-- Normal return. -/
def ret {σ α : Type} (a : α) : Prog σ α := fun s => Outcome.ok a s

/-- Sequencing: the second part runs only after a normal return of the first. -/
def seq {σ α β : Type} (p : Prog σ α) (f : α → Prog σ β) : Prog σ β := fun s =>
  match p s with
  | Outcome.ok a s1 => f a s1
  | Outcome.raise e s1 => Outcome.raise e s1
  | Outcome.undefined => Outcome.undefined

instance {σ : Type} : Monad (Prog σ) where
  pure := ret
  bind := seq

/-- The C++ `throw`. -/
def raise {σ α : Type} (e : Exception) : Prog σ α := fun s => Outcome.raise e s

/-- Undefined behaviour. -/
def undefined {σ α : Type} : Prog σ α := fun _ => Outcome.undefined

/-- Range-based `for`: the body runs on each element in order; an exception
leaving the body leaves the loop. -/
def for_each {σ α : Type} (xs : List α) (body : α → Prog σ Unit) : Prog σ Unit :=
  match xs with
  | [] => ret ()
  | x :: rest => seq (body x) (fun _ => for_each rest body)

end Prog

/-! ## std::map -/

/-- A std::map keyed by Glib::ustring: its entries in iteration order, with
pairwise distinct keys.  The iteration order is the one of the key comparison,
which the model leaves open: every statement holds for each order. -/
structure StdMap (T : Type) where
  entries : List (ustring × T)
  keys_distinct : (entries.map Prod.fst).Nodup

namespace StdMap

/-- The member function std::map::at: the mapped value, or std::out_of_range
when the key is absent. -/
def «at» {T : Type} (m : StdMap T) (k : ustring) : Except Exception T :=
  match m.entries.lookup k with
  | some t => Except.ok t
  | none => Except.error Exception.out_of_range

/-- Number of entries. -/
def size {T : Type} (m : StdMap T) : Nat := m.entries.length

end StdMap

abbrev StringMap := StdMap ustring
abbrev StringVecMap := StdMap (List ustring)
abbrev BoolMap := StdMap Bool

/-! ## Header side: `write_kv`, `fill_node`, `copy_children` -/

/-- The function write_kv: `container.add_child(key)->add_child_text(value)`. -/
def write_kv (container : Node) (key value : ustring) : Node :=
  (container.add_child key).through_last_child (fun e => e.add_child_text value)

/-- The overload fill_node(Node&, StringMap). -/
def fill_node_StringMap (container : Node) (data : StringMap) : Node :=
  data.entries.foldl (fun c entry => write_kv c entry.1 entry.2) container

/-- The overload fill_node(Node&, StringVecMap). -/
def fill_node_StringVecMap (container : Node) (data : StringVecMap) : Node :=
  data.entries.foldl
    (fun c entry => entry.2.foldl (fun c1 v => write_kv c1 entry.1 v) c) container

/-- The overload fill_node(Node&, BoolMap). -/
def fill_node_BoolMap (container : Node) (data : BoolMap) : Node :=
  data.entries.foldl
    (fun c entry => let v := entry.2; if v then c.add_child entry.1 else c) container

/-! ## Nodes in place

`copy_children` takes two node references, which may designate nodes of one and
the same tree; to say what it leaves unchanged, its model keeps the trees of the
program in a state and addresses nodes in them. -/

/-- A reference to a node: the tree the node is in and, inside that tree, the
child positions to follow from the root. -/
structure NodeRef where
  tree : Nat
  path : List Nat

/-- The reference to the child at position `i` of the node that `r`
designates. -/
def NodeRef.child (r : NodeRef) (i : Nat) : NodeRef := ⟨r.tree, r.path ++ [i]⟩

/-- The trees that the program holds, each given by its root. -/
abbrev Forest := List Node

/-- The node found by following the child positions `path` from `n`. -/
def Node.find : List Nat → Node → Option Node
  | [], n => some n
  | i :: rest, n =>
    match n.children[i]? with
    | none => none
    | some c => Node.find rest c

/-- The tree `n` after the mutation `f` of the node found by following `path`;
nothing else in the tree changes. -/
def Node.modify_at (f : Node → Node) : List Nat → Node → Node
  | [], n => f n
  | i :: rest, n => { n with children := n.children.modify (Node.modify_at f rest) i }

/-- The node that a reference designates, if any. -/
def Forest.find (st : Forest) (r : NodeRef) : Option Node :=
  match st[r.tree]? with
  | none => none
  | some root => root.find r.path

/-- The trees after the mutation `f` of the node that `r` designates. -/
def Forest.modify (st : Forest) (r : NodeRef) (f : Node → Node) : Forest :=
  List.modify (Node.modify_at f r.path) r.tree st

/-- The namespaces that the lookup can visit. -/
inductive Namespace where
  | global
  | xmlpp
  | xmlpp_util
  | std
  | Glib
  deriving DecidableEq, Repr

/-- A function that the header declares at namespace scope: its name, its
namespace and the line of its declaration in xmlpp_util.hpp. -/
structure Declared where
  name : String
  ns : Namespace
  line : Nat
  deriving DecidableEq, Repr

/-- The functions that the header declares at namespace scope, in source
order. -/
def header_functions : List Declared :=
  [⟨"write_kv", Namespace.xmlpp_util, 39⟩,
   ⟨"fill_node", Namespace.xmlpp_util, 109⟩,
   ⟨"fill_node", Namespace.xmlpp_util, 114⟩,
   ⟨"fill_node", Namespace.xmlpp_util, 121⟩,
   ⟨"copy_children", Namespace.xmlpp_util, 130⟩,
   ⟨"get_boolean", Namespace.xmlpp_util, 136⟩,
   ⟨"get_string", Namespace.xmlpp_util, 137⟩,
   ⟨"get_number", Namespace.xmlpp_util, 138⟩,
   ⟨"map_node", Namespace.xmlpp_util, 140⟩]

/-- How a compiler looks up the unqualified name of a call with dependent
arguments inside a template. -/
inductive Lookup where
  /-- The two-phase lookup of standard C++: ordinary lookup from the definition
  of the template, which sees the declarations of the enclosing namespaces that
  precede the call, and argument-dependent lookup, which sees the declarations
  of the namespaces associated with the argument types. -/
  | standard
  /-- The whole lookup is put off to the instantiation, where the declarations
  that follow the template are seen too (g++ with -fpermissive). -/
  | deferred
  deriving DecidableEq, Repr

/-- The declarations that the lookup of `name` finds for a call at line
`call_line`, given the namespaces that enclose the call and the namespaces
associated with the types of its arguments. -/
def Lookup.candidates (mode : Lookup) (name : String) (call_line : Nat)
    (enclosing associated : List Namespace) (decls : List Declared) : List Declared :=
  match mode with
  | Lookup.standard =>
    decls.filter (fun d => d.name == name &&
      ((enclosing.contains d.ns && decide (d.line < call_line)) || associated.contains d.ns))
  | Lookup.deferred =>
    decls.filter (fun d => d.name == name &&
      (enclosing.contains d.ns || associated.contains d.ns))

/-- The declarations found for the call
`fill_node(*this->data->create_root_node(root_name), m)` at line 105.  The call
stands in xmlpp::util, inside xmlpp, inside the global namespace.  Its arguments
are an xmlpp::Element and a std::map<Glib::ustring, T>, whose associated
namespaces are xmlpp, std and Glib; xmlpp::util is not among them, and libxml++,
glibmm and the standard library declare no function of this name. -/
def fill_node_candidates (mode : Lookup) : List Declared :=
  mode.candidates "fill_node" 105
    [Namespace.xmlpp_util, Namespace.xmlpp, Namespace.global]
    [Namespace.xmlpp, Namespace.std, Namespace.Glib] header_functions

/-! ## Header side: `EasyDocument` -/

/-- The struct EasyDocument: its one member `data`, a
std::unique_ptr<xmlpp::Document>; `none` is the null pointer, the value the
member has before a constructor body runs. -/
structure EasyDocument where
  data : Option Document

/-- Modelled from the spec: the two library services `parse` relies on, taken
as parameters.  `validate` is Glib::ustring::validate ("valid UTF-8").
`parse_memory` is what DomParser::parse_memory does with a text: it fails
with the library's message, or it leaves a document in the parser (`none`: no
document). -/
structure Lib where
  validate : ustring → Bool
  parse_memory : ustring → Except String (Option Document)

/-- What `parse` can touch: the wrapper itself, and the library parser, of
which the model records the texts it has been handed. -/
structure World where
  self : EasyDocument
  parsed : List ustring

/-- Modelled from the spec: xmlpp::DomParser, declared by libxml++: the
document it holds, none before a successful parse. -/
structure DomParser where
  doc : Option Document

/-- Modelled from the spec: DomParser::parse_memory(v): the library parser runs
on `v` (the call is recorded) and raises, or leaves what it has parsed in the
parser object. -/
def DomParser.parse_memory (lib : Lib) (_dp : DomParser) (v : ustring) :
    Prog World DomParser := fun w =>
  let w1 : World := { w with parsed := w.parsed ++ [v] }
  match lib.parse_memory v with
  | Except.error msg => Outcome.raise (Exception.library_error msg) w1
  | Except.ok doc => Outcome.ok ⟨doc⟩ w1

/-- Modelled from the spec: DomParser::get_document; `none` is the null
pointer. -/
def DomParser.get_document (dp : DomParser) : Option Document := dp.doc

/-- A statement of a method that touches the wrapper only. -/
def World.on_self {α : Type} (p : Prog EasyDocument α) : Prog World α := fun w =>
  match p w.self with
  | Outcome.ok a self1 => Outcome.ok a { w with self := self1 }
  | Outcome.raise e self1 => Outcome.raise e { w with self := self1 }
  | Outcome.undefined => Outcome.undefined

namespace EasyDocument

/-- The wrapper before a constructor body has run. -/
def uninitialized : EasyDocument := ⟨none⟩

/-- The statement `this->data->m(...)` for a mutating member `m` of Document;
dereferencing a null `data` is undefined. -/
def on_data (f : Document → Document) : Prog EasyDocument Unit := fun self =>
  match self.data with
  | none => Outcome.undefined
  | some d => Outcome.ok () ⟨some (f d)⟩

/-- The statement `this->data->get_root_node()->m(...)` for a mutating member
`m` of the root; dereferencing a null `data` or a null root is undefined. -/
def on_root (f : Node → Node) : Prog EasyDocument Unit := fun self =>
  match self.data with
  | none => Outcome.undefined
  | some d =>
    match d.get_root_node with
    | none => Outcome.undefined
    | some r => Outcome.ok () ⟨some { d with root := some (f r) }⟩

/-- The expression `*this->data->get_root_node()`. -/
def root_node : Prog EasyDocument Node := fun self =>
  match self.data with
  | none => Outcome.undefined
  | some d =>
    match d.get_root_node with
    | none => Outcome.undefined
    | some r => Outcome.ok r self

/-- The assignment `this->data = std::make_unique<xmlpp::Document>(...)`. -/
def set_data (d : Document) : Prog EasyDocument Unit := fun _ =>
  Outcome.ok () ⟨some d⟩

/-- The method clear. -/
def clear : Prog EasyDocument Unit := do
  set_data (Document.new (ustr "1.0"))
  on_data (fun d => d.create_root_node (ustr ""))

/-- The message of the encoding failure. -/
def invalid_encoding : String := "Only valid UTF-8 data is supported."

/-- The message of the empty-document failure. -/
def empty_document : String := "Resulting doc is empty."

/-- The message of the empty-root failure. -/
def empty_root : String := "Root node is empty."

/-- The method parse, over the wrapper and the library parser. -/
def parse (lib : Lib) (v : ustring) : Prog World Unit := do
  if !lib.validate v then
    Prog.raise (Exception.parse_error invalid_encoding)
  let dp : DomParser := ⟨none⟩
  let dp ← dp.parse_memory lib v
  let dp_doc := dp.get_document
  match dp_doc with
  | none => Prog.raise (Exception.parse_error empty_document)
  | some doc =>
    match doc.get_root_node with
    | none => Prog.raise (Exception.parse_error empty_root)
    | some dp_root_node =>
      World.on_self (on_data (fun d => d.create_root_node_by_import dp_root_node))

/-- The body of operator=: `this->data = std::move(v.data)`, where `v` is the
by-value parameter. -/
def assign (v : EasyDocument) : Prog EasyDocument Unit := fun _ =>
  Outcome.ok () ⟨v.data⟩

/-- The conversion operator bool. -/
def to_bool : Prog EasyDocument Bool := do
  let root_node ← root_node
  pure (!(root_node.get_name.isEmpty && root_node.get_children.isEmpty))

/-- The call operator: the root element. -/
def call : Prog EasyDocument Node := root_node

/-- The body of the constructor EasyDocument(Glib::ustring root_name). -/
def init_root_name (root_name : ustring) : Prog EasyDocument Unit := do
  clear
  on_root (fun r => r.set_name root_name)

/-- The default argument of the root-name constructor. -/
def default_root_name : ustring := ustr ""

/-- Importing through a node pointer that may be null; importing a null node
is taken as undefined. -/
def import_root (node : Option Node) : Prog EasyDocument Unit :=
  match node with
  | none => Prog.undefined
  | some n => on_data (fun d => d.create_root_node_by_import n)

/-- The body of the copy constructor EasyDocument(const EasyDocument& v). -/
def init_copy (v : EasyDocument) : Prog EasyDocument Unit := do
  clear
  match v.data with
  | none => Prog.undefined
  | some vd => import_root vd.get_root_node

/-- The body of the constructor EasyDocument(const xmlpp::Document& v). -/
def init_document (v : Document) : Prog EasyDocument Unit := do
  clear
  import_root v.get_root_node

/-- The body of the constructor EasyDocument(const xmlpp::Node& v). -/
def init_node (v : Node) : Prog EasyDocument Unit := do
  clear
  import_root (some v)

/-- The mapping constructor at T = Glib::ustring, whose body is
`this->clear(); fill_node(*this->data->create_root_node(root_name), m);`.
`none`: the lookup finds no `fill_node`, the program that instantiates the
constructor is ill-formed and there is nothing to run.  Otherwise the call is
the overload for StringMap. -/
def init_StringMap (mode : Lookup) (m : StringMap) (root_name : ustring) :
    Option (Prog EasyDocument Unit) :=
  if (fill_node_candidates mode).isEmpty then none
  else some (do
    clear
    on_data (fun d => d.create_root_node root_name)
    on_root (fun r => fill_node_StringMap r m))

/-- The mapping constructor at T = std::vector<Glib::ustring>; `none` as for
`init_StringMap`. -/
def init_StringVecMap (mode : Lookup) (m : StringVecMap) (root_name : ustring) :
    Option (Prog EasyDocument Unit) :=
  if (fill_node_candidates mode).isEmpty then none
  else some (do
    clear
    on_data (fun d => d.create_root_node root_name)
    on_root (fun r => fill_node_StringVecMap r m))

/-- The mapping constructor at T = bool; `none` as for `init_StringMap`. -/
def init_BoolMap (mode : Lookup) (m : BoolMap) (root_name : ustring) :
    Option (Prog EasyDocument Unit) :=
  if (fill_node_candidates mode).isEmpty then none
  else some (do
    clear
    on_data (fun d => d.create_root_node root_name)
    on_root (fun r => fill_node_BoolMap r m))

/-- The default argument of the mapping constructor. -/
def default_map_root_name : ustring := ustr "data"

/-- The mapping constructor at T = Glib::ustring called with the mapping alone:
`root_name` takes its default argument. -/
def init_StringMap_default (mode : Lookup) (m : StringMap) :
    Option (Prog EasyDocument Unit) :=
  init_StringMap mode m default_map_root_name

/-- The statement `a = b` on wrappers: the parameter of operator= is passed
by value, so it is copy-constructed from `b`, and then moved from. -/
def assign_from (b : EasyDocument) : Prog EasyDocument Unit := fun self =>
  match init_copy b uninitialized with
  | Outcome.ok _ v => assign v self
  | Outcome.raise e _ => Outcome.raise e self
  | Outcome.undefined => Outcome.undefined

end EasyDocument

/-! ## Header side: `map_node` -/

/-- The type Callback, a std::function<void(const xmlpp::Node&)> acting on a
caller-owned state `σ`; `none` is the empty std::function. -/
abbrev Callback (σ : Type) := Option (Node → Prog σ Unit)

/-- The type of `cb_unknown_key`, a std::function<void(Glib::ustring)>; `none`
is the empty std::function, which is also the default argument `nullptr`. -/
abbrev KeyCallback (σ : Type) := Option (ustring → Prog σ Unit)

abbrev CallbackMap (σ : Type) := StdMap (Callback σ)

/-- A call that reached a callback's body. -/
inductive Invocation where
  /-- The callback registered under `key` was called with `child`. -/
  | callback (key : ustring) (child : Node)
  /-- The unknown-key callback was called with `key`. -/
  | unknown_key (key : ustring)

/-- The caller-owned state together with the record of the calls made. -/
structure Observed (σ : Type) where
  user : σ
  calls : List Invocation

/-- Running the body `g` of a callback on the caller-owned state, after
recording the call `i`. -/
def Observed.run {σ : Type} (i : Invocation) (g : Prog σ Unit) : Prog (Observed σ) Unit :=
  fun s =>
    match g s.user with
    | Outcome.ok a u => Outcome.ok a ⟨u, s.calls ++ [i]⟩
    | Outcome.raise e u => Outcome.raise e ⟨u, s.calls ++ [i]⟩
    | Outcome.undefined => Outcome.undefined

/-- The call `f(*v)` of a std::function: an empty one throws
std::bad_function_call. -/
def Callback.invoke {σ : Type} (f : Callback σ) (k : ustring) (v : Node) :
    Prog (Observed σ) Unit :=
  match f with
  | none => Prog.raise Exception.bad_function_call
  | some g => Observed.run (Invocation.callback k v) (g v)

/-- The body of the loop of map_node for the child `v`. -/
def map_node_body {σ : Type} (cb_data : CallbackMap σ) (cb_unknown_key : KeyCallback σ)
    (v : Node) : Prog (Observed σ) Unit :=
  let k := v.get_name
  match cb_data.«at» k with
  | Except.error Exception.out_of_range =>
    match cb_unknown_key with
    | some u => Observed.run (Invocation.unknown_key k) (u k)
    | none => Prog.ret ()
  | Except.error e => Prog.raise e
  | Except.ok f => f.invoke k v

/-- The function map_node. -/
def map_node {σ : Type} (node : Node) (cb_data : CallbackMap σ)
    (cb_unknown_key : KeyCallback σ) : Prog (Observed σ) Unit :=
  Prog.for_each node.get_children (map_node_body cb_data cb_unknown_key)

/-! ## The wrappers a program can hold -/

/-- The wrappers that the operations named in the root invariant produce: the
root-name constructor (the default constructor is its case `root_name = ""`),
the copy constructor, the three mapping constructors (in a build where they can
be instantiated, whatever the lookup), clear, assignment from a wrapper, parse
(whether it returns or throws), and a change made to the root element through
the reference that the call operator returns. -/
inductive Reachable (lib : Lib) : EasyDocument → Prop where
  | root_name (n : ustring) (s : EasyDocument) :
      EasyDocument.init_root_name n EasyDocument.uninitialized = Outcome.ok () s → Reachable lib s
  | copy (v s : EasyDocument) :
      Reachable lib v →
      EasyDocument.init_copy v EasyDocument.uninitialized = Outcome.ok () s → Reachable lib s
  | string_map (mode : Lookup) (m : StringMap) (n : ustring)
      (body : Prog EasyDocument Unit) (s : EasyDocument) :
      EasyDocument.init_StringMap mode m n = some body →
      body EasyDocument.uninitialized = Outcome.ok () s → Reachable lib s
  | string_vec_map (mode : Lookup) (m : StringVecMap) (n : ustring)
      (body : Prog EasyDocument Unit) (s : EasyDocument) :
      EasyDocument.init_StringVecMap mode m n = some body →
      body EasyDocument.uninitialized = Outcome.ok () s → Reachable lib s
  | bool_map (mode : Lookup) (m : BoolMap) (n : ustring)
      (body : Prog EasyDocument Unit) (s : EasyDocument) :
      EasyDocument.init_BoolMap mode m n = some body →
      body EasyDocument.uninitialized = Outcome.ok () s → Reachable lib s
  | clear (d s : EasyDocument) :
      Reachable lib d → EasyDocument.clear d = Outcome.ok () s → Reachable lib s
  | assign (d b s : EasyDocument) :
      Reachable lib d → Reachable lib b →
      EasyDocument.assign_from b d = Outcome.ok () s → Reachable lib s
  | parse_returns (d : EasyDocument) (v : ustring) (log : List ustring) (w1 : World) :
      Reachable lib d →
      EasyDocument.parse lib v ⟨d, log⟩ = Outcome.ok () w1 → Reachable lib w1.self
  | parse_throws (d : EasyDocument) (v : ustring) (log : List ustring) (e : Exception)
      (w1 : World) :
      Reachable lib d →
      EasyDocument.parse lib v ⟨d, log⟩ = Outcome.raise e w1 → Reachable lib w1.self
  | edit_root (d s : EasyDocument) (f : Node → Node) :
      Reachable lib d → EasyDocument.on_root f d = Outcome.ok () s → Reachable lib s

/-! ## The dispatch by tag name, as the specification words it -/

/-- The call that the dispatch makes for the child `v`, by the words of the
specification: the callback registered under the child's tag name, with the
child; when there is none, the unknown-key callback with the tag name if one was
supplied, and no call otherwise. -/
def dispatch_call {σ : Type} (cb_data : CallbackMap σ) (cb_unknown_key : KeyCallback σ)
    (v : Node) : Option Invocation :=
  match cb_data.entries.lookup v.name with
  | some _ => some (Invocation.callback v.name v)
  | none =>
    match cb_unknown_key with
    | some _ => some (Invocation.unknown_key v.name)
    | none => none

/-- The calls that the dispatch makes for the children, in document order. -/
def dispatch_calls {σ : Type} (cb_data : CallbackMap σ) (cb_unknown_key : KeyCallback σ)
    (children : List Node) : List Invocation :=
  children.filterMap (dispatch_call cb_data cb_unknown_key)

/-- The code that a call runs: the body of the callback registered under the
key, applied to the child, or the body of the unknown-key callback, applied to
the key; `none` when there is no such body (no entry, or an empty
std::function). -/
def Invocation.body {σ : Type} (cb_data : CallbackMap σ) (cb_unknown_key : KeyCallback σ) :
    Invocation → Option (Prog σ Unit)
  | Invocation.callback key child =>
    match cb_data.entries.lookup key with
    | some (some g) => some (g child)
    | _ => none
  | Invocation.unknown_key key =>
    match cb_unknown_key with
    | some u => some (u key)
    | none => none

/-- Making the given calls one after the other on the caller-owned state: the
state they leave when each of them returns normally, `none` as soon as one of
them has no body, throws or is undefined. -/
def replay {σ : Type} (cb_data : CallbackMap σ) (cb_unknown_key : KeyCallback σ) :
    List Invocation → σ → Option σ
  | [], u => some u
  | i :: rest, u =>
    match i.body cb_data cb_unknown_key with
    | none => none
    | some g =>
      match g u with
      | Outcome.ok _ u1 => replay cb_data cb_unknown_key rest u1
      | Outcome.raise _ _ => none
      | Outcome.undefined => none

/-! ## Data for the examples -/

/-- A library for the examples: a text passes the UTF-8 check unless it
contains the byte 0xFF (which no UTF-8 text contains); the parser raises on the
empty text and gives the document `<r/>` for every other text. -/
def demo_lib : Lib where
  validate := fun v => !v.contains 0xFF
  parse_memory := fun v =>
    if v.isEmpty then Except.error "Document is empty"
    else Except.ok (some ⟨ustr "1.0", some (Node.new_element (ustr "r"))⟩)

/-- The child tagged "a" of the example node; it has a child of its own. -/
def child_a : Node := ⟨ustr "a", none, [Node.new_element (ustr "inner")]⟩

/-- The child tagged "b" of the example node. -/
def child_b : Node := Node.new_element (ustr "b")

/-- The child tagged "c" of the example node. -/
def child_c : Node := Node.new_element (ustr "c")

/-- The example node: children tagged "a", "b", "c", in this order. -/
def abc_node : Node := ⟨ustr "root", none, [child_a, child_b, child_c]⟩

/-- A callback whose caller-owned state is a list of texts: it appends the name
of the node it is given and returns. -/
def note_child : Callback (List ustring) :=
  some (fun v log => Outcome.ok () (log ++ [v.name]))

/-- An unknown-key callback on the same state: it appends "?" followed by the
key and returns. -/
def note_unknown : KeyCallback (List ustring) :=
  some (fun k log => Outcome.ok () (log ++ [ustr "?" ++ k]))

/-- A callback that appends the name of the node it is given and then throws
`e`. -/
def note_and_throw (e : Exception) : Callback (List ustring) :=
  some (fun v log => Outcome.raise e (log ++ [v.name]))

/-- The callback mapping of the example: handlers for "a" and for "c". -/
def handlers_a_c : CallbackMap (List ustring) :=
  ⟨[(ustr "a", note_child), (ustr "c", note_child)], by decide⟩

/-- A callback mapping whose handler for "a" throws; "c" has a handler that
returns. -/
def handlers_a_throws : CallbackMap (List ustring) :=
  ⟨[(ustr "a", note_and_throw (Exception.other "handler failed")), (ustr "c", note_child)],
    by decide⟩

/-- A callback mapping whose handler for "b" throws a std::out_of_range of its
own; "a" and "c" have handlers that return. -/
def handlers_b_throws : CallbackMap (List ustring) :=
  ⟨[(ustr "a", note_child), (ustr "b", note_and_throw Exception.out_of_range),
    (ustr "c", note_child)], by decide⟩

/-- The value mapping of the example: "a" to "1" and "b" to "2". -/
def value_map_a_b : StringMap :=
  ⟨[(ustr "a", ustr "1"), (ustr "b", ustr "2")], by decide⟩

/-! ## Lemmas on the effects -/

theorem Prog.seq_ok {σ α β : Type} (p : Prog σ α) (f : α → Prog σ β) (s s1 : σ) (a : α)
    (h : p s = Outcome.ok a s1) : Prog.seq p f s = f a s1 := by
  simp [Prog.seq, h]

theorem Prog.seq_raise {σ α β : Type} (p : Prog σ α) (f : α → Prog σ β) (s s1 : σ)
    (e : Exception) (h : p s = Outcome.raise e s1) : Prog.seq p f s = Outcome.raise e s1 := by
  simp [Prog.seq, h]

theorem Prog.seq_undefined {σ α β : Type} (p : Prog σ α) (f : α → Prog σ β) (s : σ)
    (h : p s = Outcome.undefined) : Prog.seq p f s = Outcome.undefined := by
  simp [Prog.seq, h]

theorem for_each_cons {σ α : Type} (x : α) (rest : List α) (body : α → Prog σ Unit) (s : σ) :
    Prog.for_each (x :: rest) body s =
      match body x s with
      | Outcome.ok _ s1 => Prog.for_each rest body s1
      | Outcome.raise e s1 => Outcome.raise e s1
      | Outcome.undefined => Outcome.undefined := by
  cases h : body x s <;> simp [Prog.for_each, Prog.seq, h]

theorem for_each_append {σ α : Type} (pre rest : List α) (body : α → Prog σ Unit) (s s1 : σ)
    (h : Prog.for_each pre body s = Outcome.ok () s1) :
    Prog.for_each (pre ++ rest) body s = Prog.for_each rest body s1 := by
  induction pre generalizing s with
  | nil =>
    simp only [Prog.for_each, Prog.ret] at h
    cases h; rfl
  | cons x xs ih =>
    rw [List.cons_append, for_each_cons]
    rw [for_each_cons] at h
    cases hb : body x s with
    | ok a s2 =>
      rw [hb] at h
      exact ih s2 h
    | raise e s2 => rw [hb] at h; cases h
    | undefined => rw [hb] at h; cases h

/-! ## Lemmas on the node primitives -/

theorem Node.through_last_child_add_child (c : Node) (k : ustring) (f : Node → Node) :
    (c.add_child k).through_last_child f =
      { c with children := c.children ++ [f (Node.new_element k)] } := by
  simp [Node.through_last_child, Node.add_child]

theorem write_kv_eq (c : Node) (k v : ustring) :
    write_kv c k v =
      { c with children := c.children ++ [⟨k, none, [Node.new_text v]⟩] } := by
  simp [write_kv, Node.through_last_child_add_child, Node.add_child_text, Node.new_element]

/-- Folding a step that appends `g e` to the children appends them all, in order. -/
theorem foldl_append_children {E : Type} (g : E → List Node) (step : Node → E → Node)
    (hstep : ∀ c e, step c e = { c with children := c.children ++ g e })
    (es : List E) (c : Node) :
    es.foldl step c = { c with children := c.children ++ es.flatMap g } := by
  induction es generalizing c with
  | nil => cases c; simp
  | cons e rest ih => simp [List.foldl, hstep, ih, List.append_assoc]

theorem lookup_eq_none_of_not_mem {T : Type} (es : List (ustring × T)) (k : ustring)
    (h : k ∉ es.map Prod.fst) : es.lookup k = none := by
  induction es with
  | nil => rfl
  | cons e rest ih =>
    obtain ⟨k1, t1⟩ := e
    simp only [List.map_cons, List.mem_cons, not_or] at h
    have hb : (k == k1) = false := by simpa using h.1
    simp [List.lookup, hb, ih h.2]

theorem mem_of_lookup_eq_some {T : Type} (es : List (ustring × T)) (k : ustring) (t : T)
    (h : es.lookup k = some t) : (k, t) ∈ es := by
  induction es with
  | nil => simp [List.lookup] at h
  | cons e rest ih =>
    obtain ⟨k1, t1⟩ := e
    by_cases hk : k = k1
    · subst hk
      simp [List.lookup] at h
      simp [h]
    · have hb : (k == k1) = false := by simpa using hk
      simp [List.lookup, hb] at h
      exact List.mem_cons_of_mem _ (ih h)

/-- With distinct keys, the children that the entries of a map produce under a
given name are those of the entry with that key. -/
theorem filter_name_flatMap {T : Type} (g : ustring → T → List Node)
    (hg : ∀ k t, ∀ c ∈ g k t, c.name = k)
    (es : List (ustring × T)) (hd : (es.map Prod.fst).Nodup) (k : ustring) :
    (es.flatMap (fun e => g e.1 e.2)).filter (fun c => decide (c.name = k)) =
      match es.lookup k with
      | some t => g k t
      | none => [] := by
  induction es with
  | nil => simp [List.lookup]
  | cons e rest ih =>
    obtain ⟨k1, t1⟩ := e
    simp only [List.map_cons, List.nodup_cons] at hd
    simp only [List.flatMap_cons, List.filter_append, ih hd.2]
    by_cases hk : k = k1
    · subst hk
      have h1 : (g k t1).filter (fun c => decide (c.name = k)) = g k t1 := by
        apply List.filter_eq_self.mpr
        intro c hc
        simp [hg k t1 c hc]
      simp [List.lookup, h1, lookup_eq_none_of_not_mem rest k hd.1]
    · have h1 : (g k1 t1).filter (fun c => decide (c.name = k)) = [] := by
        apply List.filter_eq_nil_iff.mpr
        intro c hc
        have := hg k1 t1 c hc
        simp [this]
        exact fun h => hk h.symm
      have hb : (k == k1) = false := by simpa using hk
      simp [List.lookup, h1, hb]

theorem at_eq_ok_iff {T : Type} (m : StdMap T) (k : ustring) (t : T) :
    m.«at» k = Except.ok t ↔ m.entries.lookup k = some t := by
  unfold StdMap.«at»
  cases h : m.entries.lookup k with
  | none => simp
  | some t1 => simp

theorem at_eq_error_iff {T : Type} (m : StdMap T) (k : ustring) (e : Exception) :
    m.«at» k = Except.error e ↔ (m.entries.lookup k = none ∧ e = Exception.out_of_range) := by
  unfold StdMap.«at»
  cases h : m.entries.lookup k with
  | none => simp [eq_comm]
  | some t1 => simp

theorem fill_node_BoolMap_eq (container : Node) (m : BoolMap) :
    fill_node_BoolMap container m =
      { container with children := container.children ++
          m.entries.flatMap (fun e => if e.2 then [Node.new_element e.1] else []) } := by
  unfold fill_node_BoolMap
  apply foldl_append_children
  intro c e
  cases h : e.2 <;> simp [h, Node.add_child]
  cases c; rfl

theorem fill_node_StringMap_eq (container : Node) (m : StringMap) :
    fill_node_StringMap container m =
      { container with children := container.children ++
          m.entries.flatMap (fun e => [⟨e.1, none, [Node.new_text e.2]⟩]) } := by
  unfold fill_node_StringMap
  apply foldl_append_children
  intro c e
  exact write_kv_eq c e.1 e.2

theorem fill_node_StringVecMap_eq (container : Node) (m : StringVecMap) :
    fill_node_StringVecMap container m =
      { container with children := container.children ++
          m.entries.flatMap (fun e => e.2.map (fun v => ⟨e.1, none, [Node.new_text v]⟩)) } := by
  unfold fill_node_StringVecMap
  apply foldl_append_children
  intro c e
  rw [foldl_append_children (fun v => [⟨e.1, none, [Node.new_text v]⟩]) _
    (fun c1 v => write_kv_eq c1 e.1 v)]
  rw [← List.map_eq_flatMap]

theorem flatMap_if_eq_map_filter {E : Type} (p : E → Bool) (f : E → Node) (es : List E) :
    es.flatMap (fun e => if p e then [f e] else []) = (es.filter p).map f := by
  induction es with
  | nil => rfl
  | cons e rest ih =>
    cases h : p e <;> simp [List.flatMap_cons, List.filter_cons, h, ih]

/-- C5: fill_node on a boolean-flag mapping keeps the container's name, text and
existing children and appends, in the mapping's iteration order, one empty
element (no text, no children) named by each key whose value is true and nothing
for a key whose value is false; the number of appended children is the number of
true entries. -/
theorem fill_node_BoolMap_appends (container : Node) (m : BoolMap) :
    (fill_node_BoolMap container m).name = container.name ∧
    (fill_node_BoolMap container m).content = container.content ∧
    ∃ added : List Node,
      (fill_node_BoolMap container m).children = container.children ++ added ∧
      added = (m.entries.filter (fun e => e.2)).map (fun e => ⟨e.1, none, []⟩) ∧
      added.length = m.entries.countP (fun e => e.2) ∧
      (∀ k, m.«at» k = Except.ok true →
        added.filter (fun c => decide (c.name = k)) = [⟨k, none, []⟩]) ∧
      (∀ k, m.«at» k = Except.ok false →
        added.filter (fun c => decide (c.name = k)) = []) ∧
      (∀ k, m.«at» k = Except.error Exception.out_of_range →
        added.filter (fun c => decide (c.name = k)) = []) := by
  rw [fill_node_BoolMap_eq]
  refine ⟨rfl, rfl, _, rfl, ?_, ?_, ?_⟩
  · exact flatMap_if_eq_map_filter (fun e => e.2) (fun e => Node.new_element e.1) m.entries
  · rw [flatMap_if_eq_map_filter (fun e => e.2) (fun e => Node.new_element e.1) m.entries,
      List.length_map, List.countP_eq_length_filter]
  · have key := fun k => filter_name_flatMap
      (fun (k : ustring) (b : Bool) => if b then [Node.new_element k] else [])
      (by intro k b c hc; cases b <;> simp [Node.new_element] at hc; simp [hc])
      m.entries m.keys_distinct k
    refine ⟨?_, ?_, ?_⟩
    · intro k hk
      rw [at_eq_ok_iff] at hk
      rw [key k, hk]; rfl
    · intro k hk
      rw [at_eq_ok_iff] at hk
      rw [key k, hk]; rfl
    · intro k hk
      rw [at_eq_error_iff] at hk
      rw [key k, hk.1]

/-- C6: fill_node on a list-of-values mapping keeps the container's name, text
and existing children and appends, entry by entry in the mapping's iteration
order, one element named by the key per value of the key's list, each holding
that value as its one text node, in the order of the list; a key with an empty
list adds nothing, and the number of appended children is the sum of the list
lengths. -/
theorem fill_node_StringVecMap_appends (container : Node) (m : StringVecMap) :
    (fill_node_StringVecMap container m).name = container.name ∧
    (fill_node_StringVecMap container m).content = container.content ∧
    ∃ added : List Node,
      (fill_node_StringVecMap container m).children = container.children ++ added ∧
      added = m.entries.flatMap
        (fun e => e.2.map (fun v => ⟨e.1, none, [⟨ustr "text", some v, []⟩]⟩)) ∧
      added.length = (m.entries.map (fun e => e.2.length)).sum ∧
      (∀ k vs, m.«at» k = Except.ok vs →
        added.filter (fun c => decide (c.name = k)) =
          vs.map (fun v => ⟨k, none, [⟨ustr "text", some v, []⟩]⟩)) ∧
      (∀ k, m.«at» k = Except.ok [] →
        added.filter (fun c => decide (c.name = k)) = []) ∧
      (∀ k, m.«at» k = Except.error Exception.out_of_range →
        added.filter (fun c => decide (c.name = k)) = []) := by
  rw [fill_node_StringVecMap_eq]
  have key := fun k => filter_name_flatMap
    (fun (k : ustring) (vs : List ustring) => vs.map (fun v => ⟨k, none, [Node.new_text v]⟩))
    (by intro k vs c hc; simp at hc; obtain ⟨v, _, rfl⟩ := hc; rfl)
    m.entries m.keys_distinct k
  refine ⟨rfl, rfl, _, rfl, rfl, ?_, ?_, ?_, ?_⟩
  · simp [List.length_flatMap, Function.comp_def]
  · intro k vs hk
    rw [at_eq_ok_iff] at hk
    rw [key k, hk]; rfl
  · intro k hk
    rw [at_eq_ok_iff] at hk
    rw [key k, hk]; rfl
  · intro k hk
    rw [at_eq_error_iff] at hk
    rw [key k, hk.1]

/-! ## The subtree copier -/

theorem Node.modify_at_id (path : List Nat) (n : Node) :
    Node.modify_at (fun x => x) path n = n := by
  induction path generalizing n with
  | nil => rfl
  | cons i rest ih =>
    simp only [Node.modify_at]
    have : Node.modify_at (fun x => x) rest = id := funext ih
    rw [this, List.modify_id]
    cases n
    rfl

theorem Forest.modify_id (st : Forest) (r : NodeRef) :
    st.modify r (fun x => x) = st := by
  simp only [Forest.modify]
  have : Node.modify_at (fun x => x) r.path = id := funext (Node.modify_at_id r.path)
  rw [this, List.modify_id]

namespace EasyDocument

theorem clear_eq (self : EasyDocument) :
    clear self = Outcome.ok () ⟨some ⟨ustr "1.0", some (Node.new_element [])⟩⟩ := rfl

theorem init_root_name_eq (root_name : ustring) (self : EasyDocument) :
    init_root_name root_name self =
      Outcome.ok () ⟨some ⟨ustr "1.0", some (Node.new_element root_name)⟩⟩ := rfl

theorem fill_node_candidates_standard : fill_node_candidates Lookup.standard = [] := by
  decide

theorem fill_node_candidates_deferred :
    fill_node_candidates Lookup.deferred =
      [⟨"fill_node", Namespace.xmlpp_util, 109⟩, ⟨"fill_node", Namespace.xmlpp_util, 114⟩,
       ⟨"fill_node", Namespace.xmlpp_util, 121⟩] := by
  decide

theorem init_StringMap_standard (m : StringMap) (root_name : ustring) :
    init_StringMap Lookup.standard m root_name = none := by
  simp [init_StringMap, fill_node_candidates_standard]

theorem init_StringMap_deferred (m : StringMap) (root_name : ustring) :
    ∃ body, init_StringMap Lookup.deferred m root_name = some body := by
  simp [init_StringMap, fill_node_candidates_deferred]

theorem init_StringVecMap_deferred (m : StringVecMap) (root_name : ustring) :
    ∃ body, init_StringVecMap Lookup.deferred m root_name = some body := by
  simp [init_StringVecMap, fill_node_candidates_deferred]

theorem init_BoolMap_deferred (m : BoolMap) (root_name : ustring) :
    ∃ body, init_BoolMap Lookup.deferred m root_name = some body := by
  simp [init_BoolMap, fill_node_candidates_deferred]

/-- Where the mapping constructor can be instantiated, what it leaves. -/
theorem init_StringMap_some (mode : Lookup) (m : StringMap) (root_name : ustring)
    (body : Prog EasyDocument Unit) (h : init_StringMap mode m root_name = some body)
    (self : EasyDocument) :
    body self = Outcome.ok () ⟨some ⟨ustr "1.0",
      some (fill_node_StringMap (Node.new_element root_name) m)⟩⟩ := by
  unfold init_StringMap at h
  split at h
  · cases h
  · cases h; rfl

theorem init_StringVecMap_some (mode : Lookup) (m : StringVecMap) (root_name : ustring)
    (body : Prog EasyDocument Unit) (h : init_StringVecMap mode m root_name = some body)
    (self : EasyDocument) :
    body self = Outcome.ok () ⟨some ⟨ustr "1.0",
      some (fill_node_StringVecMap (Node.new_element root_name) m)⟩⟩ := by
  unfold init_StringVecMap at h
  split at h
  · cases h
  · cases h; rfl

theorem init_BoolMap_some (mode : Lookup) (m : BoolMap) (root_name : ustring)
    (body : Prog EasyDocument Unit) (h : init_BoolMap mode m root_name = some body)
    (self : EasyDocument) :
    body self = Outcome.ok () ⟨some ⟨ustr "1.0",
      some (fill_node_BoolMap (Node.new_element root_name) m)⟩⟩ := by
  unfold init_BoolMap at h
  split at h
  · cases h
  · cases h; rfl

theorem to_bool_eq (self : EasyDocument) :
    to_bool self =
      match self.data with
      | none => Outcome.undefined
      | some d =>
        match d.root with
        | none => Outcome.undefined
        | some r => Outcome.ok (!(r.name.isEmpty && r.children.isEmpty)) self := by
  rcases self with ⟨_ | ⟨ver, _ | r⟩⟩ <;> rfl

theorem to_bool_of_root (ver : ustring) (r : Node) :
    to_bool ⟨some ⟨ver, some r⟩⟩ =
      Outcome.ok (!(r.name.isEmpty && r.children.isEmpty)) ⟨some ⟨ver, some r⟩⟩ := rfl

/-- Where the lookup is deferred and the mapping constructor can be
instantiated, on a value mapping `m` and a root name `r` its body completes and
leaves a document whose root is named `r`, has no text of its own, and has as
children exactly one element per entry of `m`, in iteration order, named by the
key and holding one text node with the value: `m.size` children, one for each
key; with the root name omitted the root is named "data". -/
theorem init_StringMap_deferred_document (m : StringMap) (r : ustring) :
    ∃ (body : Prog EasyDocument Unit) (root : Node),
      init_StringMap Lookup.deferred m r = some body ∧
      body uninitialized = Outcome.ok () ⟨some ⟨ustr "1.0", some root⟩⟩ ∧
      root.name = r ∧ root.content = none ∧
      root.children =
        m.entries.map (fun e => ⟨e.1, none, [⟨ustr "text", some e.2, []⟩]⟩) ∧
      root.children.length = m.size ∧
      (∀ k v, m.«at» k = Except.ok v →
        root.children.filter (fun c => decide (c.name = k)) =
          [⟨k, none, [⟨ustr "text", some v, []⟩]⟩]) ∧
      (∀ k, m.«at» k = Except.error Exception.out_of_range →
        root.children.filter (fun c => decide (c.name = k)) = []) ∧
      (r = default_map_root_name →
        init_StringMap_default Lookup.deferred m = some body ∧ root.name = ustr "data") := by
  obtain ⟨body, hbody⟩ := init_StringMap_deferred m r
  refine ⟨body, _, hbody, init_StringMap_some _ m r body hbody uninitialized, ?_⟩
  rw [fill_node_StringMap_eq]
  have key := fun k => filter_name_flatMap
    (fun (k : ustring) (v : ustring) => [(⟨k, none, [Node.new_text v]⟩ : Node)])
    (by intro k v c hc; simp at hc; subst hc; rfl)
    m.entries m.keys_distinct k
  have hmap : m.entries.flatMap (fun e => [(⟨e.1, none, [Node.new_text e.2]⟩ : Node)]) =
      m.entries.map (fun e => ⟨e.1, none, [⟨ustr "text", some e.2, []⟩]⟩) :=
    (List.map_eq_flatMap _ _).symm
  refine ⟨rfl, rfl, ?_, ?_, ?_, ?_, ?_⟩
  · simpa [Node.new_element] using hmap
  · simp only [Node.new_element, StdMap.size, List.nil_append]
    rw [hmap, List.length_map]
  · intro k v hk
    rw [at_eq_ok_iff] at hk
    simp only [Node.new_element, List.nil_append]
    rw [key k, hk]; rfl
  · intro k hk
    rw [at_eq_error_iff] at hk
    simp only [Node.new_element, List.nil_append]
    rw [key k, hk.1]
  · intro hr
    subst hr
    exact ⟨hbody, rfl⟩

/-- C7: the code does not get as far as the claim.  Under the lookup of standard
C++ the call of `fill_node` in the mapping constructor finds no declaration (the
overloads come after the template and xmlpp::util is not a namespace associated
with the argument types), so the constructor cannot be instantiated, for the
value mapping "a" to "1", "b" to "2" with the root name "data" as for every
mapping and root name.  With the lookup deferred to the instantiation the same
body leaves the document of the claim, `<data><a>1</a><b>2</b></data>`. -/
theorem init_StringMap_ill_formed :
    fill_node_candidates Lookup.standard = [] ∧
    init_StringMap Lookup.standard value_map_a_b (ustr "data") = none ∧
    (∀ (m : StringMap) (r : ustring), init_StringMap Lookup.standard m r = none) ∧
    ∃ body, init_StringMap Lookup.deferred value_map_a_b (ustr "data") = some body ∧
      body uninitialized = Outcome.ok () ⟨some ⟨ustr "1.0", some ⟨ustr "data", none,
        [⟨ustr "a", none, [⟨ustr "text", some (ustr "1"), []⟩]⟩,
         ⟨ustr "b", none, [⟨ustr "text", some (ustr "2"), []⟩]⟩]⟩⟩⟩ := by
  refine ⟨fill_node_candidates_standard, init_StringMap_standard _ _,
    init_StringMap_standard, ?_⟩
  obtain ⟨body, hbody⟩ := init_StringMap_deferred value_map_a_b (ustr "data")
  refine ⟨body, hbody, ?_⟩
  rw [init_StringMap_some _ _ _ body hbody]
  rfl

/-- C4: operator bool is true exactly when the wrapper has a root whose tag
name is not empty or which has at least one child, and false for a root with an
empty name and no child.  It is false after clear() and after the default
constructor; it is true after a constructor given a non-empty root name (the
root-name constructor, and each of the three mapping constructors wherever it
can be instantiated, which is the case with the lookup deferred) and after a
child (an element, a text node, an imported node) has been added to the
root. -/
theorem to_bool_true_iff :
    (∀ self : EasyDocument,
      (∃ s, to_bool self = Outcome.ok true s) ↔
        ∃ d r, self.data = some d ∧ d.root = some r ∧ (r.name ≠ [] ∨ r.children ≠ [])) ∧
    (∀ self : EasyDocument,
      (∃ s, to_bool self = Outcome.ok false s) ↔
        ∃ d r, self.data = some d ∧ d.root = some r ∧ r.name = [] ∧ r.children = []) ∧
    (∀ self : EasyDocument, ∃ s, clear self = Outcome.ok () s ∧ to_bool s = Outcome.ok false s) ∧
    (∃ s, init_root_name default_root_name uninitialized = Outcome.ok () s ∧
      to_bool s = Outcome.ok false s) ∧
    (∀ n : ustring, n ≠ [] →
      ∃ s, init_root_name n uninitialized = Outcome.ok () s ∧ to_bool s = Outcome.ok true s) ∧
    (∀ (n : ustring) (m : StringMap), n ≠ [] →
      (∃ body, init_StringMap Lookup.deferred m n = some body) ∧
      ∀ mode body, init_StringMap mode m n = some body →
        ∃ s, body uninitialized = Outcome.ok () s ∧ to_bool s = Outcome.ok true s) ∧
    (∀ (n : ustring) (m : StringVecMap), n ≠ [] →
      (∃ body, init_StringVecMap Lookup.deferred m n = some body) ∧
      ∀ mode body, init_StringVecMap mode m n = some body →
        ∃ s, body uninitialized = Outcome.ok () s ∧ to_bool s = Outcome.ok true s) ∧
    (∀ (n : ustring) (m : BoolMap), n ≠ [] →
      (∃ body, init_BoolMap Lookup.deferred m n = some body) ∧
      ∀ mode body, init_BoolMap mode m n = some body →
        ∃ s, body uninitialized = Outcome.ok () s ∧ to_bool s = Outcome.ok true s) ∧
    (∀ (self : EasyDocument) (d : Document) (r : Node),
      self.data = some d → d.root = some r →
      (∀ name, ∃ s, on_root (fun x => x.add_child name) self = Outcome.ok () s ∧
        to_bool s = Outcome.ok true s) ∧
      (∀ text, ∃ s, on_root (fun x => x.add_child_text text) self = Outcome.ok () s ∧
        to_bool s = Outcome.ok true s) ∧
      (∀ v, ∃ s, on_root (fun x => x.import_node v) self = Outcome.ok () s ∧
        to_bool s = Outcome.ok true s)) := by
  refine ⟨?_, ?_, ?_, ?_, ?_, ?_, ?_, ?_, ?_⟩
  · intro self
    rw [to_bool_eq]
    rcases self with ⟨_ | ⟨ver, _ | r⟩⟩
    · simp
    · simp
    · rcases r with ⟨name, content, children⟩
      cases name <;> cases children <;> simp
  · intro self
    rw [to_bool_eq]
    rcases self with ⟨_ | ⟨ver, _ | r⟩⟩
    · simp
    · simp
    · rcases r with ⟨name, content, children⟩
      cases name <;> cases children <;> simp
  · intro self
    exact ⟨_, clear_eq self, rfl⟩
  · exact ⟨_, init_root_name_eq _ _, rfl⟩
  · intro n hn
    refine ⟨_, init_root_name_eq _ _, ?_⟩
    rw [to_bool_of_root]
    cases n with
    | nil => exact absurd rfl hn
    | cons a l => rfl
  · intro n m hn
    refine ⟨init_StringMap_deferred m n, ?_⟩
    intro mode body hbody
    refine ⟨_, init_StringMap_some mode m n body hbody _, ?_⟩
    rw [to_bool_of_root, fill_node_StringMap_eq]
    cases n with
    | nil => exact absurd rfl hn
    | cons a l => rfl
  · intro n m hn
    refine ⟨init_StringVecMap_deferred m n, ?_⟩
    intro mode body hbody
    refine ⟨_, init_StringVecMap_some mode m n body hbody _, ?_⟩
    rw [to_bool_of_root, fill_node_StringVecMap_eq]
    cases n with
    | nil => exact absurd rfl hn
    | cons a l => rfl
  · intro n m hn
    refine ⟨init_BoolMap_deferred m n, ?_⟩
    intro mode body hbody
    refine ⟨_, init_BoolMap_some mode m n body hbody _, ?_⟩
    rw [to_bool_of_root, fill_node_BoolMap_eq]
    cases n with
    | nil => exact absurd rfl hn
    | cons a l => rfl
  · intro self d r hd hr
    rcases self with ⟨data⟩
    rcases d with ⟨ver, root⟩
    simp only at hd hr
    subst hd hr
    refine ⟨?_, ?_, ?_⟩
    · intro name
      refine ⟨_, rfl, ?_⟩
      rw [to_bool_of_root]
      simp [Node.add_child, List.isEmpty_iff]
    · intro text
      refine ⟨_, rfl, ?_⟩
      rw [to_bool_of_root]
      simp [Node.add_child_text, List.isEmpty_iff]
    · intro v
      refine ⟨_, rfl, ?_⟩
      rw [to_bool_of_root]
      simp [Node.import_node, List.isEmpty_iff]

/-- The outcome of `parse` when the text is rejected by the UTF-8 check. -/
theorem parse_invalid (lib : Lib) (v : ustring) (w : World) (h : lib.validate v = false) :
    parse lib v w = Outcome.raise (Exception.parse_error invalid_encoding) w := by
  simp [parse, h, bind, Prog.seq, Prog.raise]

/-- The outcome of `parse` on a text that passes the UTF-8 check, by what the
library parser gives. -/
theorem parse_valid (lib : Lib) (v : ustring) (w : World) (h : lib.validate v = true) :
    parse lib v w =
      match lib.parse_memory v with
      | Except.error msg =>
        Outcome.raise (Exception.library_error msg) ⟨w.self, w.parsed ++ [v]⟩
      | Except.ok none =>
        Outcome.raise (Exception.parse_error empty_document) ⟨w.self, w.parsed ++ [v]⟩
      | Except.ok (some doc) =>
        match doc.root with
        | none => Outcome.raise (Exception.parse_error empty_root) ⟨w.self, w.parsed ++ [v]⟩
        | some r =>
          match w.self.data with
          | none => Outcome.undefined
          | some d => Outcome.ok () ⟨⟨some { d with root := some r }⟩, w.parsed ++ [v]⟩ := by
  simp only [parse, h, bind, pure, Bool.not_true, Bool.false_eq_true, if_false]
  rw [Prog.seq_ok _ _ w w () (by simp [Prog.ret])]
  cases hp : lib.parse_memory v with
  | error msg =>
    rw [Prog.seq_raise _ _ w ⟨w.self, w.parsed ++ [v]⟩ (Exception.library_error msg)
      (by simp [DomParser.parse_memory, hp])]
  | ok od =>
    rw [Prog.seq_ok _ _ w ⟨w.self, w.parsed ++ [v]⟩ ⟨od⟩
      (by simp [DomParser.parse_memory, hp])]
    cases od with
    | none => rfl
    | some doc =>
      rcases doc with ⟨ver, _ | r⟩
      · rfl
      · rcases w with ⟨⟨_ | d⟩, parsed⟩ <;> rfl

/-- Whenever `parse` throws, the wrapper is the one from before the call. -/
theorem parse_raise_self (lib : Lib) (v : ustring) (w : World) (e : Exception) (w1 : World)
    (hres : parse lib v w = Outcome.raise e w1) : w1.self = w.self := by
  cases h : lib.validate v with
  | false =>
    rw [parse_invalid lib v w h] at hres
    cases hres; rfl
  | true =>
    rw [parse_valid lib v w h] at hres
    cases hp : lib.parse_memory v with
    | error msg => rw [hp] at hres; cases hres; rfl
    | ok od =>
      rw [hp] at hres
      cases od with
      | none => cases hres; rfl
      | some doc =>
        rcases doc with ⟨ver, _ | r⟩
        · cases hres; rfl
        · rcases w with ⟨⟨_ | d⟩, parsed⟩ <;> cases hres

/-- Whenever `parse` returns, the text was valid, the parser gave a document
with a root, and that root is the new root of the wrapper's document. -/
theorem parse_ok_self (lib : Lib) (v : ustring) (w : World) (w1 : World)
    (hres : parse lib v w = Outcome.ok () w1) :
    ∃ doc r d, lib.validate v = true ∧ lib.parse_memory v = Except.ok (some doc) ∧
      doc.root = some r ∧ w.self.data = some d ∧
      w1.self = ⟨some { d with root := some r }⟩ := by
  cases h : lib.validate v with
  | false =>
    rw [parse_invalid lib v w h] at hres
    cases hres
  | true =>
    rw [parse_valid lib v w h] at hres
    cases hp : lib.parse_memory v with
    | error msg => rw [hp] at hres; cases hres
    | ok od =>
      rw [hp] at hres
      cases od with
      | none => cases hres
      | some doc =>
        rcases doc with ⟨ver, _ | r⟩
        · cases hres
        · rcases w with ⟨⟨_ | d⟩, parsed⟩
          · cases hres
          · cases hres
            exact ⟨_, r, d, rfl, rfl, rfl, rfl, rfl⟩

/-- C2: parse is atomic.  In each of the four failure cases (the text fails the
UTF-8 check, the library parser raises, the parser holds no document, the parsed
document has no root) parse throws and the wrapper is the one from before the
call; whenever parse throws, the wrapper is unchanged; and when parse returns,
the text was valid, the parser gave a document with a root, and the wrapper's
document has that root as its new root. -/
theorem parse_atomic (lib : Lib) (v : ustring) (w : World) :
    (lib.validate v = false →
      ∃ w1, parse lib v w = Outcome.raise (Exception.parse_error invalid_encoding) w1 ∧
        w1.self = w.self) ∧
    (∀ msg, lib.validate v = true → lib.parse_memory v = Except.error msg →
      ∃ w1, parse lib v w = Outcome.raise (Exception.library_error msg) w1 ∧
        w1.self = w.self) ∧
    (lib.validate v = true → lib.parse_memory v = Except.ok none →
      ∃ w1, parse lib v w = Outcome.raise (Exception.parse_error empty_document) w1 ∧
        w1.self = w.self) ∧
    (∀ doc, lib.validate v = true → lib.parse_memory v = Except.ok (some doc) →
      doc.root = none →
      ∃ w1, parse lib v w = Outcome.raise (Exception.parse_error empty_root) w1 ∧
        w1.self = w.self) ∧
    (∀ e w1, parse lib v w = Outcome.raise e w1 → w1.self = w.self) ∧
    (∀ w1, parse lib v w = Outcome.ok () w1 →
      ∃ doc r d, lib.validate v = true ∧ lib.parse_memory v = Except.ok (some doc) ∧
        doc.root = some r ∧ w.self.data = some d ∧
        w1.self = ⟨some { d with root := some r }⟩) ∧
    (∀ doc r d, lib.validate v = true → lib.parse_memory v = Except.ok (some doc) →
      doc.root = some r → w.self.data = some d →
      ∃ w1, parse lib v w = Outcome.ok () w1 ∧ w1.self = ⟨some { d with root := some r }⟩) := by
  refine ⟨?_, ?_, ?_, ?_, ?_, ?_, ?_⟩
  · intro h
    exact ⟨w, parse_invalid lib v w h, rfl⟩
  · intro msg h hp
    exact ⟨⟨w.self, w.parsed ++ [v]⟩, by rw [parse_valid lib v w h, hp], rfl⟩
  · intro h hp
    exact ⟨⟨w.self, w.parsed ++ [v]⟩, by rw [parse_valid lib v w h, hp], rfl⟩
  · intro doc h hp hr
    exact ⟨⟨w.self, w.parsed ++ [v]⟩, by rw [parse_valid lib v w h, hp]; simp only [hr], rfl⟩
  · exact parse_raise_self lib v w
  · exact parse_ok_self lib v w
  · intro doc r d h hp hr hd
    refine ⟨⟨⟨some { d with root := some r }⟩, w.parsed ++ [v]⟩, ?_, rfl⟩
    rw [parse_valid lib v w h, hp]
    simp only [hr, hd]

/-- C3: parse throws the encoding error (the xmlpp::parse_error with the
message "Only valid UTF-8 data is supported.") exactly when the text fails the
UTF-8 check; that error differs from the empty-document and the empty-root
errors, which carry other messages; and when the text fails the check the whole
state is as before the call, the record of the texts handed to the library
parser included: the parser has not been run.  On a text that passes the check
and makes parse throw, the parser has been run on it. -/
theorem parse_encoding_error (lib : Lib) (v : ustring) (w : World) :
    ((∃ w1, parse lib v w = Outcome.raise (Exception.parse_error invalid_encoding) w1) ↔
      lib.validate v = false) ∧
    (lib.validate v = false →
      parse lib v w = Outcome.raise (Exception.parse_error invalid_encoding) w) ∧
    (∀ e w1, lib.validate v = false → parse lib v w = Outcome.raise e w1 →
      w1.parsed = w.parsed) ∧
    (∀ e w1, lib.validate v = true → parse lib v w = Outcome.raise e w1 →
      w1.parsed = w.parsed ++ [v]) ∧
    Exception.parse_error invalid_encoding ≠ Exception.parse_error empty_document ∧
    Exception.parse_error invalid_encoding ≠ Exception.parse_error empty_root := by
  refine ⟨⟨?_, ?_⟩, ?_, ?_, ?_, by decide, by decide⟩
  · rintro ⟨w1, hres⟩
    cases h : lib.validate v with
    | false => rfl
    | true =>
      exfalso
      rw [parse_valid lib v w h] at hres
      cases hp : lib.parse_memory v with
      | error msg => rw [hp] at hres; cases hres
      | ok od =>
        rw [hp] at hres
        cases od with
        | none =>
          injection hres with he _
          exact absurd he (by decide)
        | some doc =>
          rcases doc with ⟨ver, _ | r⟩
          · injection hres with he _
            exact absurd he (by decide)
          · rcases w with ⟨⟨_ | d⟩, parsed⟩ <;> cases hres
  · intro h
    exact ⟨w, parse_invalid lib v w h⟩
  · exact parse_invalid lib v w
  · intro e w1 h hres
    rw [parse_invalid lib v w h] at hres
    cases hres; rfl
  · intro e w1 h hres
    rw [parse_valid lib v w h] at hres
    cases hp : lib.parse_memory v with
    | error msg => rw [hp] at hres; cases hres; rfl
    | ok od =>
      rw [hp] at hres
      cases od with
      | none => cases hres; rfl
      | some doc =>
        rcases doc with ⟨ver, _ | r⟩
        · cases hres; rfl
        · rcases w with ⟨⟨_ | d⟩, parsed⟩ <;> cases hres

theorem init_copy_of_root (ver : ustring) (r : Node) (self : EasyDocument) :
    init_copy ⟨some ⟨ver, some r⟩⟩ self = Outcome.ok () ⟨some ⟨ustr "1.0", some r⟩⟩ := rfl

theorem assign_from_of_root (ver : ustring) (r : Node) (self : EasyDocument) :
    assign_from ⟨some ⟨ver, some r⟩⟩ self = Outcome.ok () ⟨some ⟨ustr "1.0", some r⟩⟩ := rfl

theorem on_root_of_root (ver : ustring) (r : Node) (f : Node → Node) :
    on_root f ⟨some ⟨ver, some r⟩⟩ = Outcome.ok () ⟨some ⟨ver, some (f r)⟩⟩ := rfl

/-- The root invariant: a reachable wrapper holds a document that has a root. -/
theorem root_of_reachable (lib : Lib) (self : EasyDocument) (h : Reachable lib self) :
    ∃ ver r, self = ⟨some ⟨ver, some r⟩⟩ := by
  induction h with
  | root_name n s hs =>
    rw [init_root_name_eq] at hs
    cases hs; exact ⟨_, _, rfl⟩
  | copy v s _ hs ih =>
    obtain ⟨ver, r, rfl⟩ := ih
    rw [init_copy_of_root] at hs
    cases hs; exact ⟨_, _, rfl⟩
  | string_map mode m n body s hbody hs =>
    rw [init_StringMap_some mode m n body hbody] at hs
    cases hs; exact ⟨_, _, rfl⟩
  | string_vec_map mode m n body s hbody hs =>
    rw [init_StringVecMap_some mode m n body hbody] at hs
    cases hs; exact ⟨_, _, rfl⟩
  | bool_map mode m n body s hbody hs =>
    rw [init_BoolMap_some mode m n body hbody] at hs
    cases hs; exact ⟨_, _, rfl⟩
  | clear d s _ hs _ =>
    rw [clear_eq] at hs
    cases hs; exact ⟨_, _, rfl⟩
  | assign d b s _ _ hs _ ihb =>
    obtain ⟨ver, r, rfl⟩ := ihb
    rw [assign_from_of_root] at hs
    cases hs; exact ⟨_, _, rfl⟩
  | parse_returns d v log w1 _ hs ih =>
    obtain ⟨ver, r, rfl⟩ := ih
    obtain ⟨doc, r1, d1, _, _, _, hd, hw⟩ := parse_ok_self lib v _ w1 hs
    rw [hw]
    exact ⟨_, _, rfl⟩
  | parse_throws d v log e w1 _ hs ih =>
    have hw := parse_raise_self lib v _ e w1 hs
    rw [hw]
    exact ih
  | edit_root d s f _ hs ih =>
    obtain ⟨ver, r, rfl⟩ := ih
    rw [on_root_of_root] at hs
    cases hs; exact ⟨_, _, rfl⟩

/-- C9: every wrapper produced by the constructors (root name, copy, mapping),
clear, assignment, parse (returning or throwing) and edits of the root through
the call operator holds a document that has a root: the call operator returns
that root and operator bool returns a value, neither dereferences a null
pointer.  On such a wrapper each of these operations completes: none ends in
undefined behaviour, and only parse can throw. -/
theorem reachable_has_root (lib : Lib) (self : EasyDocument) (h : Reachable lib self) :
    ∃ d r, self.data = some d ∧ d.root = some r ∧
      call self = Outcome.ok r self ∧
      to_bool self = Outcome.ok (!(r.name.isEmpty && r.children.isEmpty)) self ∧
      (∃ s, clear self = Outcome.ok () s ∧ Reachable lib s) ∧
      (∃ s, init_copy self uninitialized = Outcome.ok () s ∧ Reachable lib s) ∧
      (∀ b, Reachable lib b → ∃ s, assign_from b self = Outcome.ok () s ∧ Reachable lib s) ∧
      (∀ f, ∃ s, on_root f self = Outcome.ok () s ∧ Reachable lib s) ∧
      (∀ v log, (∃ w1, parse lib v ⟨self, log⟩ = Outcome.ok () w1 ∧ Reachable lib w1.self) ∨
        (∃ e w1, parse lib v ⟨self, log⟩ = Outcome.raise e w1 ∧ Reachable lib w1.self)) := by
  obtain ⟨ver, r, rfl⟩ := root_of_reachable lib self h
  refine ⟨_, r, rfl, rfl, rfl, rfl, ?_, ?_, ?_, ?_, ?_⟩
  · exact ⟨_, rfl, Reachable.clear _ _ h rfl⟩
  · exact ⟨_, rfl, Reachable.copy _ _ h rfl⟩
  · intro b hb
    obtain ⟨ver1, r1, rfl⟩ := root_of_reachable lib b hb
    exact ⟨_, rfl, Reachable.assign _ _ _ h hb rfl⟩
  · intro f
    exact ⟨_, rfl, Reachable.edit_root _ _ f h rfl⟩
  · intro v log
    cases hres : parse lib v ⟨⟨some ⟨ver, some r⟩⟩, log⟩ with
    | ok a w1 => exact Or.inl ⟨w1, rfl, Reachable.parse_returns _ v log w1 h hres⟩
    | raise e w1 => exact Or.inr ⟨e, w1, rfl, Reachable.parse_throws _ v log e w1 h hres⟩
    | undefined =>
      exfalso
      cases hv : lib.validate v with
      | false => rw [parse_invalid lib v _ hv] at hres; cases hres
      | true =>
        rw [parse_valid lib v _ hv] at hres
        cases hp : lib.parse_memory v with
        | error msg => rw [hp] at hres; cases hres
        | ok od =>
          rw [hp] at hres
          cases od with
          | none => cases hres
          | some doc =>
            rcases doc with ⟨ver2, _ | r2⟩ <;> cases hres

/-- C9 at a concrete wrapper: built with the root name "a", then parsed with
`demo_lib` from the text "<r/>". -/
theorem reachable_has_root_witness :
    Reachable demo_lib ⟨some ⟨ustr "1.0", some (Node.new_element (ustr "r"))⟩⟩ ∧
    ∃ d r, (⟨some ⟨ustr "1.0", some (Node.new_element (ustr "r"))⟩⟩ : EasyDocument).data = some d ∧
      d.root = some r ∧
      call ⟨some ⟨ustr "1.0", some (Node.new_element (ustr "r"))⟩⟩ =
        Outcome.ok r ⟨some ⟨ustr "1.0", some (Node.new_element (ustr "r"))⟩⟩ :=
  have hr : Reachable demo_lib ⟨some ⟨ustr "1.0", some (Node.new_element (ustr "r"))⟩⟩ :=
    Reachable.parse_returns ⟨some ⟨ustr "1.0", some (Node.new_element (ustr "a"))⟩⟩
      (ustr "<r/>") [] ⟨⟨some ⟨ustr "1.0", some (Node.new_element (ustr "r"))⟩⟩, [ustr "<r/>"]⟩
      (Reachable.root_name (ustr "a") _ rfl) rfl
  ⟨hr, by
    obtain ⟨d, r, h1, h2, h3, _⟩ := reachable_has_root demo_lib _ hr
    exact ⟨d, r, h1, h2, h3⟩⟩

end EasyDocument

/-! ## The tag dispatcher -/

theorem map_node_body_registered {σ : Type} (cb_data : CallbackMap σ)
    (cb_unknown_key : KeyCallback σ) (v : Node) (f : Callback σ)
    (h : cb_data.entries.lookup v.name = some f) :
    map_node_body cb_data cb_unknown_key v = f.invoke v.name v := by
  simp [map_node_body, StdMap.«at», Node.get_name, h]

theorem map_node_body_unknown {σ : Type} (cb_data : CallbackMap σ)
    (cb_unknown_key : KeyCallback σ) (v : Node)
    (h : cb_data.entries.lookup v.name = none) :
    map_node_body cb_data cb_unknown_key v =
      match cb_unknown_key with
      | some u => Observed.run (Invocation.unknown_key v.name) (u v.name)
      | none => Prog.ret () := by
  simp [map_node_body, StdMap.«at», Node.get_name, h]

/-- When each of the calls that the dispatch prescribes returns normally, the
loop returns normally, having made exactly those calls. -/
theorem for_each_of_replay {σ : Type} (cb_data : CallbackMap σ) (cb_unknown_key : KeyCallback σ)
    (children : List Node) (s : Observed σ) (u1 : σ)
    (h : replay cb_data cb_unknown_key (dispatch_calls cb_data cb_unknown_key children) s.user
      = some u1) :
    Prog.for_each children (map_node_body cb_data cb_unknown_key) s =
      Outcome.ok () ⟨u1, s.calls ++ dispatch_calls cb_data cb_unknown_key children⟩ := by
  induction children generalizing s with
  | nil =>
    simp only [dispatch_calls, List.filterMap_nil, replay] at h
    cases h
    cases s
    simp [Prog.for_each, Prog.ret, dispatch_calls]
  | cons v rest ih =>
    rw [for_each_cons]
    cases hl : cb_data.entries.lookup v.name with
    | some f =>
      have hd : dispatch_calls cb_data cb_unknown_key (v :: rest) =
          Invocation.callback v.name v :: dispatch_calls cb_data cb_unknown_key rest := by
        simp [dispatch_calls, dispatch_call, hl]
      rw [hd] at h ⊢
      rw [map_node_body_registered cb_data cb_unknown_key v f hl]
      cases f with
      | none => simp [replay, Invocation.body, hl] at h
      | some g =>
        simp only [replay, Invocation.body, hl] at h
        simp only [Callback.invoke, Observed.run]
        cases hg : g v s.user with
        | ok a u =>
          rw [hg] at h
          simp only
          rw [ih ⟨u, s.calls ++ [Invocation.callback v.name v]⟩ h]
          simp
        | raise e u => rw [hg] at h; cases h
        | undefined => rw [hg] at h; cases h
    | none =>
      rw [map_node_body_unknown cb_data cb_unknown_key v hl]
      cases cb_unknown_key with
      | none =>
        have hd : dispatch_calls cb_data none (v :: rest) = dispatch_calls cb_data none rest := by
          simp [dispatch_calls, dispatch_call, hl]
        rw [hd] at h ⊢
        simp only [Prog.ret]
        exact ih s h
      | some u =>
        have hd : dispatch_calls cb_data (some u) (v :: rest) =
            Invocation.unknown_key v.name :: dispatch_calls cb_data (some u) rest := by
          simp [dispatch_calls, dispatch_call, hl]
        rw [hd] at h ⊢
        simp only [replay, Invocation.body] at h
        simp only [Observed.run]
        cases hg : u v.name s.user with
        | ok a u2 =>
          rw [hg] at h
          simp only
          rw [ih ⟨u2, s.calls ++ [Invocation.unknown_key v.name]⟩ h]
          simp
        | raise e u2 => rw [hg] at h; cases h
        | undefined => rw [hg] at h; cases h

/-- Whatever way the loop ends, the calls it has made are an initial part of the
calls that the dispatch prescribes: each child is reached at most once, in
document order, and for each child at most the one call prescribed for it is
made. -/
theorem for_each_calls_initial {σ : Type} (cb_data : CallbackMap σ)
    (cb_unknown_key : KeyCallback σ) (children : List Node) (s : Observed σ) :
    (∀ s1, Prog.for_each children (map_node_body cb_data cb_unknown_key) s = Outcome.ok () s1 →
      s1.calls = s.calls ++ dispatch_calls cb_data cb_unknown_key children) ∧
    (∀ e s1, Prog.for_each children (map_node_body cb_data cb_unknown_key) s =
        Outcome.raise e s1 →
      ∃ extra, s1.calls = s.calls ++ extra ∧
        extra <+: dispatch_calls cb_data cb_unknown_key children) := by
  induction children generalizing s with
  | nil =>
    constructor
    · intro s1 h
      simp only [Prog.for_each, Prog.ret] at h
      cases h
      simp [dispatch_calls]
    · intro e s1 h
      simp only [Prog.for_each, Prog.ret] at h
      cases h
  | cons v rest ih =>
    rw [for_each_cons]
    cases hl : cb_data.entries.lookup v.name with
    | some f =>
      have hd : dispatch_calls cb_data cb_unknown_key (v :: rest) =
          Invocation.callback v.name v :: dispatch_calls cb_data cb_unknown_key rest := by
        simp [dispatch_calls, dispatch_call, hl]
      rw [hd, map_node_body_registered cb_data cb_unknown_key v f hl]
      cases f with
      | none =>
        simp only [Callback.invoke, Prog.raise]
        constructor
        · intro s1 h; cases h
        · intro e s1 h
          cases h
          exact ⟨[], by simp, by simp⟩
      | some g =>
        simp only [Callback.invoke, Observed.run]
        cases hg : g v s.user with
        | ok a u =>
          simp only
          obtain ⟨ih1, ih2⟩ := ih ⟨u, s.calls ++ [Invocation.callback v.name v]⟩
          constructor
          · intro s1 h
            rw [ih1 s1 h]; simp
          · intro e s1 h
            obtain ⟨extra, he, hp⟩ := ih2 e s1 h
            exact ⟨Invocation.callback v.name v :: extra, by rw [he]; simp,
              (List.prefix_cons_inj _).mpr hp⟩
        | raise e u =>
          simp only
          constructor
          · intro s1 h; cases h
          · intro e1 s1 h
            cases h
            exact ⟨[Invocation.callback v.name v], rfl, by simp⟩
        | undefined =>
          simp only
          constructor
          · intro s1 h; cases h
          · intro e1 s1 h; cases h
    | none =>
      rw [map_node_body_unknown cb_data cb_unknown_key v hl]
      cases cb_unknown_key with
      | none =>
        have hd : dispatch_calls cb_data none (v :: rest) = dispatch_calls cb_data none rest := by
          simp [dispatch_calls, dispatch_call, hl]
        rw [hd]
        simp only [Prog.ret]
        exact ih s
      | some u =>
        have hd : dispatch_calls cb_data (some u) (v :: rest) =
            Invocation.unknown_key v.name :: dispatch_calls cb_data (some u) rest := by
          simp [dispatch_calls, dispatch_call, hl]
        rw [hd]
        simp only [Observed.run]
        cases hg : u v.name s.user with
        | ok a u2 =>
          simp only
          obtain ⟨ih1, ih2⟩ := ih ⟨u2, s.calls ++ [Invocation.unknown_key v.name]⟩
          constructor
          · intro s1 h
            rw [ih1 s1 h]; simp
          · intro e s1 h
            obtain ⟨extra, he, hp⟩ := ih2 e s1 h
            exact ⟨Invocation.unknown_key v.name :: extra, by rw [he]; simp,
              (List.prefix_cons_inj _).mpr hp⟩
        | raise e u2 =>
          simp only
          constructor
          · intro s1 h; cases h
          · intro e1 s1 h
            cases h
            exact ⟨[Invocation.unknown_key v.name], rfl, by simp⟩
        | undefined =>
          simp only
          constructor
          · intro s1 h; cases h
          · intro e1 s1 h; cases h

/-- An unknown-key call among the prescribed calls is for a key that the
mapping does not have. -/
theorem unknown_key_mem_dispatch_calls {σ : Type} (cb_data : CallbackMap σ)
    (cb_unknown_key : KeyCallback σ) (children : List Node) (k : ustring)
    (h : Invocation.unknown_key k ∈ dispatch_calls cb_data cb_unknown_key children) :
    cb_data.«at» k = Except.error Exception.out_of_range ∧ ∃ v ∈ children, v.name = k := by
  simp only [dispatch_calls, List.mem_filterMap] at h
  obtain ⟨v, hv, hc⟩ := h
  unfold dispatch_call at hc
  cases hl : cb_data.entries.lookup v.name with
  | some f => rw [hl] at hc; simp at hc
  | none =>
    rw [hl] at hc
    cases cb_unknown_key with
    | none => simp at hc
    | some u =>
      simp only [Option.some.injEq, Invocation.unknown_key.injEq] at hc
      subst hc
      exact ⟨by simp [StdMap.«at», hl], v, hv, rfl⟩

/-- When the loop returns normally, each of the calls that the dispatch
prescribes has returned normally, and the state left is theirs. -/
theorem replay_of_for_each {σ : Type} (cb_data : CallbackMap σ) (cb_unknown_key : KeyCallback σ)
    (children : List Node) (s s1 : Observed σ)
    (h : Prog.for_each children (map_node_body cb_data cb_unknown_key) s = Outcome.ok () s1) :
    replay cb_data cb_unknown_key (dispatch_calls cb_data cb_unknown_key children) s.user
      = some s1.user := by
  induction children generalizing s with
  | nil =>
    simp only [Prog.for_each, Prog.ret] at h
    cases h
    simp [dispatch_calls, replay]
  | cons v rest ih =>
    rw [for_each_cons] at h
    cases hl : cb_data.entries.lookup v.name with
    | some f =>
      have hd : dispatch_calls cb_data cb_unknown_key (v :: rest) =
          Invocation.callback v.name v :: dispatch_calls cb_data cb_unknown_key rest := by
        simp [dispatch_calls, dispatch_call, hl]
      rw [hd]
      rw [map_node_body_registered cb_data cb_unknown_key v f hl] at h
      cases f with
      | none => simp [Callback.invoke, Prog.raise] at h
      | some g =>
        simp only [Callback.invoke, Observed.run] at h
        simp only [replay, Invocation.body, hl]
        cases hg : g v s.user with
        | ok a u =>
          rw [hg] at h
          exact ih _ h
        | raise e u => rw [hg] at h; cases h
        | undefined => rw [hg] at h; cases h
    | none =>
      rw [map_node_body_unknown cb_data cb_unknown_key v hl] at h
      cases cb_unknown_key with
      | none =>
        have hd : dispatch_calls cb_data none (v :: rest) = dispatch_calls cb_data none rest := by
          simp [dispatch_calls, dispatch_call, hl]
        rw [hd]
        exact ih s h
      | some u =>
        have hd : dispatch_calls cb_data (some u) (v :: rest) =
            Invocation.unknown_key v.name :: dispatch_calls cb_data (some u) rest := by
          simp [dispatch_calls, dispatch_call, hl]
        rw [hd]
        simp only [Observed.run] at h
        simp only [replay, Invocation.body]
        cases hg : u v.name s.user with
        | ok a u2 =>
          rw [hg] at h
          exact ih _ h
        | raise e u2 => rw [hg] at h; cases h
        | undefined => rw [hg] at h; cases h

/-- map_node returns normally exactly when each of the calls that the dispatch
prescribes, made in document order, returns normally; it has then made exactly
those calls. -/
theorem map_node_returns_iff {σ : Type} (node : Node) (cb_data : CallbackMap σ)
    (cb_unknown_key : KeyCallback σ) (s s1 : Observed σ) :
    map_node node cb_data cb_unknown_key s = Outcome.ok () s1 ↔
      (replay cb_data cb_unknown_key
          (dispatch_calls cb_data cb_unknown_key node.children) s.user = some s1.user ∧
        s1.calls = s.calls ++ dispatch_calls cb_data cb_unknown_key node.children) := by
  constructor
  · intro h
    exact ⟨replay_of_for_each cb_data cb_unknown_key node.children s s1 h,
      (for_each_calls_initial cb_data cb_unknown_key node.children s).1 s1 h⟩
  · rintro ⟨h1, h2⟩
    have := for_each_of_replay cb_data cb_unknown_key node.children s s1.user h1
    rw [← h2] at this
    exact this

/-- When no registered callback is empty or fails and the unknown-key callback
does not fail, each of the calls that the dispatch prescribes returns
normally. -/
theorem replay_of_returning_callbacks {σ : Type} (cb_data : CallbackMap σ)
    (cb_unknown_key : KeyCallback σ)
    (hcb : ∀ k f, cb_data.entries.lookup k = some f →
      ∃ g, f = some g ∧ ∀ v u, ∃ u1, g v u = Outcome.ok () u1)
    (hunk : ∀ g, cb_unknown_key = some g → ∀ k u, ∃ u1, g k u = Outcome.ok () u1)
    (children : List Node) (u : σ) :
    ∃ u1, replay cb_data cb_unknown_key
      (dispatch_calls cb_data cb_unknown_key children) u = some u1 := by
  induction children generalizing u with
  | nil => exact ⟨u, rfl⟩
  | cons v rest ih =>
    cases hl : cb_data.entries.lookup v.name with
    | some f =>
      have hd : dispatch_calls cb_data cb_unknown_key (v :: rest) =
          Invocation.callback v.name v :: dispatch_calls cb_data cb_unknown_key rest := by
        simp [dispatch_calls, dispatch_call, hl]
      obtain ⟨g, rfl, hg⟩ := hcb v.name f hl
      obtain ⟨u2, hu2⟩ := hg v u
      rw [hd]
      simp only [replay, Invocation.body, hl, hu2]
      exact ih u2
    | none =>
      cases cb_unknown_key with
      | none =>
        have hd : dispatch_calls cb_data none (v :: rest) = dispatch_calls cb_data none rest := by
          simp [dispatch_calls, dispatch_call, hl]
        rw [hd]
        exact ih u
      | some g =>
        have hd : dispatch_calls cb_data (some g) (v :: rest) =
            Invocation.unknown_key v.name :: dispatch_calls cb_data (some g) rest := by
          simp [dispatch_calls, dispatch_call, hl]
        obtain ⟨u2, hu2⟩ := hunk g rfl v.name u
        rw [hd]
        simp only [replay, Invocation.body, hu2]
        exact ih u2

/-- C1, as amended: provided each of the calls that the dispatch prescribes for
the children (for a child whose tag name is a key, that key's callback with the
child; otherwise the unknown-key callback with the tag name if one was supplied,
and nothing if not), made one after the other in document order, returns
normally and leaves the caller-owned state `u1`, map_node returns normally,
leaves that state, and has made exactly those calls, in that order: one visit
per immediate child, none for a grandchild. -/
theorem map_node_dispatch {σ : Type} (node : Node) (cb_data : CallbackMap σ)
    (cb_unknown_key : KeyCallback σ) (s : Observed σ) (u1 : σ)
    (h : replay cb_data cb_unknown_key
      (dispatch_calls cb_data cb_unknown_key node.children) s.user = some u1) :
    map_node node cb_data cb_unknown_key s =
      Outcome.ok () ⟨u1, s.calls ++ dispatch_calls cb_data cb_unknown_key node.children⟩ :=
  for_each_of_replay cb_data cb_unknown_key node.children s u1 h

/-- C1 on the example of the specification: children "a", "b", "c", handlers for
"a" and "c", an unknown-key callback supplied: the "a" callback, then the
unknown-key callback for "b", then the "c" callback. -/
theorem map_node_dispatch_witness :
    replay handlers_a_c note_unknown
      (dispatch_calls handlers_a_c note_unknown abc_node.children) [] =
        some [ustr "a", ustr "?b", ustr "c"] ∧
    map_node abc_node handlers_a_c note_unknown ⟨[], []⟩ =
      Outcome.ok () ⟨[ustr "a", ustr "?b", ustr "c"],
        [] ++ dispatch_calls handlers_a_c note_unknown abc_node.children⟩ :=
  ⟨rfl, map_node_dispatch abc_node handlers_a_c note_unknown ⟨[], []⟩ _ rfl⟩

/-- C1 as stated fails: on the children "a", "b", "c" with a handler for "a" that
throws and a handler for "c", map_node ends with the exception of the "a"
handler after that one call; the child "c", whose tag name is a key, is never
visited, although the dispatch prescribes a call for it. -/
theorem map_node_stops_at_failing_callback :
    map_node abc_node handlers_a_throws none ⟨[], []⟩ =
      Outcome.raise (Exception.other "handler failed")
        ⟨[ustr "a"], [Invocation.callback (ustr "a") child_a]⟩ ∧
    dispatch_calls handlers_a_throws none abc_node.children =
      [Invocation.callback (ustr "a") child_a, Invocation.callback (ustr "c") child_c] ∧
    ¬ ∃ s1, map_node abc_node handlers_a_throws none ⟨[], []⟩ = Outcome.ok () s1 := by
  refine ⟨rfl, rfl, ?_⟩
  rintro ⟨s1, h⟩
  have h2 : map_node abc_node handlers_a_throws none ⟨[], []⟩ =
      Outcome.raise (Exception.other "handler failed")
        ⟨[ustr "a"], [Invocation.callback (ustr "a") child_a]⟩ := rfl
  rw [h2] at h
  cases h

/-- C10: let the children of `node` be `pre`, then `v`, then `post`, let the
pass over `pre` return normally and leave the state `s1`, and let `f` be the
callback registered under the tag name of `v`.  If `f` is empty, map_node throws
std::bad_function_call and leaves `s1`.  If the body of `f` throws `e` (a
std::out_of_range included) and leaves the caller-owned state `u`, map_node
throws `e` and leaves `u` and the calls of `s1` followed by the call of `f`: the
unknown-key callback is not called for `v`, no child of `post` is visited, and
what the earlier callbacks did is kept.  However map_node ends, an unknown-key
call it has made is for the tag name of a child that the mapping does not
have. -/
theorem map_node_callback_failure {σ : Type} (node : Node) (pre post : List Node) (v : Node)
    (cb_data : CallbackMap σ) (cb_unknown_key : KeyCallback σ) (f : Callback σ)
    (s s1 : Observed σ)
    (hch : node.children = pre ++ v :: post)
    (hpre : map_node ⟨node.name, node.content, pre⟩ cb_data cb_unknown_key s = Outcome.ok () s1)
    (hf : cb_data.«at» v.name = Except.ok f) :
    (f = none →
      map_node node cb_data cb_unknown_key s = Outcome.raise Exception.bad_function_call s1) ∧
    (∀ g e u, f = some g → g v s1.user = Outcome.raise e u →
      map_node node cb_data cb_unknown_key s =
        Outcome.raise e ⟨u, s1.calls ++ [Invocation.callback v.name v]⟩) ∧
    (∀ s2, (map_node node cb_data cb_unknown_key s = Outcome.ok () s2 ∨
        ∃ e, map_node node cb_data cb_unknown_key s = Outcome.raise e s2) →
      ∃ extra, s2.calls = s.calls ++ extra ∧
        ∀ k, Invocation.unknown_key k ∈ extra →
          cb_data.«at» k = Except.error Exception.out_of_range) := by
  have hl : cb_data.entries.lookup v.name = some f := (at_eq_ok_iff cb_data v.name f).mp hf
  have hrun : map_node node cb_data cb_unknown_key s =
      Prog.for_each (v :: post) (map_node_body cb_data cb_unknown_key) s1 := by
    unfold map_node Node.get_children
    rw [hch]
    exact for_each_append pre (v :: post) _ s s1 hpre
  refine ⟨?_, ?_, ?_⟩
  · intro hnone
    subst hnone
    rw [hrun, for_each_cons, map_node_body_registered cb_data cb_unknown_key v none hl]
    rfl
  · intro g e u hsome hg
    subst hsome
    rw [hrun, for_each_cons, map_node_body_registered cb_data cb_unknown_key v (some g) hl]
    simp only [Callback.invoke, Observed.run, hg]
  · intro s2 hres
    have hmem : ∀ extra, extra <+: dispatch_calls cb_data cb_unknown_key node.children →
        ∀ k, Invocation.unknown_key k ∈ extra →
          cb_data.«at» k = Except.error Exception.out_of_range := fun extra hp k hk =>
      (unknown_key_mem_dispatch_calls cb_data cb_unknown_key node.children k (hp.subset hk)).1
    rcases hres with hres | ⟨e, hres⟩
    · exact ⟨_, (for_each_calls_initial cb_data cb_unknown_key node.children s).1 s2 hres,
        hmem _ (List.prefix_refl _)⟩
    · obtain ⟨extra, he, hp⟩ :=
        (for_each_calls_initial cb_data cb_unknown_key node.children s).2 e s2 hres
      exact ⟨extra, he, hmem extra hp⟩

/-- C10 on an example: children "a", "b", "c", all three with handlers, the one
for "b" throwing a std::out_of_range of its own, and an unknown-key callback
supplied. -/
theorem map_node_callback_failure_witness :
    map_node abc_node handlers_b_throws note_unknown ⟨[], []⟩ =
      Outcome.raise Exception.out_of_range
        ⟨[ustr "a", ustr "b"],
          [Invocation.callback (ustr "a") child_a] ++ [Invocation.callback (ustr "b") child_b]⟩ :=
  (map_node_callback_failure abc_node [child_a] [child_c] child_b handlers_b_throws note_unknown
    (note_and_throw Exception.out_of_range) ⟨[], []⟩
    ⟨[ustr "a"], [Invocation.callback (ustr "a") child_a]⟩ rfl rfl rfl).2.1
    (fun v log => Outcome.raise Exception.out_of_range (log ++ [v.name]))
    Exception.out_of_range [ustr "a", ustr "b"] rfl rfl

end xmlpp
